import Mathlib

/-!
Verification of the search/match/rank engine, the request cache and the
tool-dispatch layer of an Apple developer-documentation MCP server,
shallowly embedded from its TypeScript sources (`src/apple-client.ts` and
the server entry file).  Strings are modelled as lists of characters,
upstream fetches as `Except String` values, and machine behaviour
(JavaScript truthiness, `String.prototype` methods, `RegExp` over the
restricted pattern language the code generates) is made explicit.
-/

namespace AppleDoc

/-! ### JavaScript string primitives -/

/-- Per-character lowercasing, modelling `String.prototype.toLowerCase`
(adequate for the BMP-simple case folding the code relies on). -/
def lowerL (s : List Char) : List Char := s.map Char.toLower

/-- `s.startsWith(p)` on character lists. -/
def jsStartsWith : List Char → List Char → Bool
  | _, [] => true
  | [], _ :: _ => false
  | c :: s, d :: p => c == d && jsStartsWith s p

/-- `s.includes(p)` on character lists. -/
def jsIncludes : List Char → List Char → Bool
  | [], p => jsStartsWith [] p
  | c :: s, p => jsStartsWith (c :: s) p || jsIncludes s p

/-! ### Pattern compilation (`createSearchPattern`)

The source builds a `RegExp` in two string rewrites:
```
const escaped = query.replace(/[.*+?^${}()|[\]\\]/g, '\\$&');
const pattern = escaped.replace(/\\\*/g, '.*').replace(/\\\?/g, '.');
return new RegExp(pattern, 'i');
```
We model each rewrite on character lists exactly (a global replace of a
fixed two-character pattern is a left-to-right, non-overlapping scan),
then interpret the produced pattern string with a parser for the regex
fragment these strings inhabit.  `new RegExp` throwing on a malformed
pattern is modelled by the parser returning `none`. -/

/-- The character class `[.*+?^${}()|[\]\\]` of the escaping rewrite. -/
def metaChars : List Char :=
  ['.', '*', '+', '?', '^', '$', '\x7b', '\x7d', '(', ')', '|', '[', ']', '\\']

/-- One step of `query.replace(/[...]/g, '\\$&')`. -/
def escapeChar (c : Char) : List Char :=
  if c ∈ metaChars then ['\\', c] else [c]

/-- `query.replace(/[.*+?^${}()|[\]\\]/g, '\\$&')`. -/
def escaped (q : List Char) : List Char := q.flatMap escapeChar

/-- `escaped.replace(/\\\*/g, '.*')`: global replace of the two-character
sequence `\*` by `.*`, scanning left to right without overlap. -/
def replaceStar : List Char → List Char
  | [] => []
  | [c] => [c]
  | c :: d :: rest =>
    if c = '\\' ∧ d = '*' then '.' :: '*' :: replaceStar rest
    else c :: replaceStar (d :: rest)

/-- `….replace(/\\\?/g, '.')`: global replace of `\?` by `.`. -/
def replaceQm : List Char → List Char
  | [] => []
  | [c] => [c]
  | c :: d :: rest =>
    if c = '\\' ∧ d = '?' then '.' :: replaceQm rest
    else c :: replaceQm (d :: rest)

/-- The final pattern string handed to `new RegExp(·, 'i')`. -/
def patternString (q : List Char) : List Char := replaceQm (replaceStar (escaped q))

/-- Tokens of the regex fragment the generated patterns live in:
an escaped literal character, `.`, or `.*`. -/
inductive GlobTok where
  | lit (c : Char)
  | anyChar
  | star
deriving DecidableEq, Repr

/-- Parser for the generated pattern strings, modelling `new RegExp`:
`\c` is a literal, `.*` is a star, `.` matches a single character, any
other unescaped metacharacter is outside the fragment (modelled as a
compilation failure, `none`). -/
def parsePattern : List Char → Option (List GlobTok)
  | [] => some []
  | c :: rest =>
    if c = '\\' then
      match rest with
      | [] => none
      | d :: rest' => (parsePattern rest').map (GlobTok.lit d :: ·)
    else if c = '.' then
      match rest with
      | [] => some [GlobTok.anyChar]
      | d :: rest' =>
        if d = '*' then (parsePattern rest').map (GlobTok.star :: ·)
        else (parsePattern (d :: rest')).map (GlobTok.anyChar :: ·)
    else if c ∈ metaChars then none
    else (parsePattern rest).map (GlobTok.lit c :: ·)

/-- The intended glob reading of a query character. -/
def tokOfChar (c : Char) : GlobTok :=
  if c = '*' then GlobTok.star else if c = '?' then GlobTok.anyChar else GlobTok.lit c

/-- Glob-token view of a whole query. -/
def compileGlob (q : String) : List GlobTok := q.data.map tokOfChar

/-- `createSearchPattern`, end to end: escape, rewrite, compile.
`some` carries the token list of the compiled regular expression. -/
def createSearchPattern (q : String) : Option (List GlobTok) :=
  parsePattern (patternString q.data)

/-- The unit the first rewrite turns one query character into. -/
def starUnit (c : Char) : List Char :=
  if c = '*' then ['.', '*'] else if c ∈ metaChars then ['\\', c] else [c]

/-- The unit the full rewrite chain turns one query character into. -/
def globUnit (c : Char) : List Char :=
  if c = '*' then ['.', '*']
  else if c = '?' then ['.']
  else if c ∈ metaChars then ['\\', c] else [c]

/-! ### Regular-expression matching

The generated pattern is compiled with flag `'i'` only: literals compare
case-insensitively and `.` matches any character except a JavaScript
line terminator (no `s` flag).  `RegExp.prototype.test` performs an
unanchored search. -/

/-- JavaScript line terminators, which `.` does not match without the
`s` flag. -/
def lineTerm (c : Char) : Bool :=
  c == '\n' || c == '\r' || c == '\u2028' || c == '\u2029'

/-- Whether `.` matches a character. -/
def dotMatch (c : Char) : Bool := !lineTerm c

/-- Case-insensitive literal match (the `i` flag). -/
def charMatchI (p d : Char) : Bool := p.toLower == d.toLower

/-- Whether the token list matches some prefix of the character list
(an anchored-at-start match that may leave a remainder). -/
def matchHere : List GlobTok → List Char → Bool
  | [], _ => true
  | GlobTok.lit _ :: _, [] => false
  | GlobTok.lit c :: ps, d :: ds => charMatchI c d && matchHere ps ds
  | GlobTok.anyChar :: _, [] => false
  | GlobTok.anyChar :: ps, d :: ds => dotMatch d && matchHere ps ds
  | GlobTok.star :: ps, ds =>
    (List.range (ds.length + 1)).any fun i =>
      (ds.take i).all dotMatch && matchHere ps (ds.drop i)

/-- Unanchored search: try to match at every start position. -/
def searchFrom (ps : List GlobTok) : List Char → Bool
  | [] => matchHere ps []
  | c :: s => matchHere ps (c :: s) || searchFrom ps s

/-- `pattern.test(title)` for the compiled pattern. -/
def regexTest (ps : List GlobTok) (title : String) : Bool :=
  searchFrom ps title.data

/-- Specification-level glob semantics: the token list matches exactly
the character list, with `lit` comparing case-insensitively, `anyChar`
consuming one non-line-terminator character and `star` consuming any
run of non-line-terminator characters. -/
inductive GlobMatch : List GlobTok → List Char → Prop where
  | nil : GlobMatch [] []
  | lit {c d : Char} {ps : List GlobTok} {ds : List Char} :
      charMatchI c d = true → GlobMatch ps ds →
      GlobMatch (GlobTok.lit c :: ps) (d :: ds)
  | anyChar {d : Char} {ps : List GlobTok} {ds : List Char} :
      dotMatch d = true → GlobMatch ps ds →
      GlobMatch (GlobTok.anyChar :: ps) (d :: ds)
  | star {ps : List GlobTok} {pre post : List Char} :
      (∀ c ∈ pre, dotMatch c = true) → GlobMatch ps post →
      GlobMatch (GlobTok.star :: ps) (pre ++ post)

/-! ### Ranking (`scoreMatch`) -/

/-- `query.replace(/\*/g, '')`: only `*` is stripped; `?` is kept. -/
def stripStars (q : List Char) : List Char := q.filter (fun c => c != '*')

/-- `scoreMatch(title, query)`: 0 = exact, 1 = starts-with, 2 = contains,
3 = anything else, comparing the lowercased title against the lowercased
`*`-stripped query. -/
def scoreMatch (title query : String) : Nat :=
  let lowerTitle := lowerL title.data
  let lowerQuery := lowerL (stripStars query.data)
  if lowerTitle = lowerQuery then 0
  else if jsStartsWith lowerTitle lowerQuery then 1
  else if jsIncludes lowerTitle lowerQuery then 2
  else 3

/-! ### Data model

Upstream JSON nodes are loosely typed; optional fields are modelled with
`Option`, and JavaScript truthiness (`undefined` and `''` are falsy,
every array including `[]` is truthy) is made explicit at each use
site. -/

/-- One platform-availability record. -/
structure PlatformRec where
  name : Option String
  introducedAt : String
  beta : Bool
deriving DecidableEq, Repr

/-- One abstract fragment (`{text, type}`). -/
structure AbstractItem where
  text : String
  type : String
deriving DecidableEq, Repr

/-- One entry of a document's `references` map (an arbitrary-shaped
node; only the fields the core reads are modelled). -/
structure Ref where
  title : Option String
  abstract : Option (List AbstractItem)
  url : Option String
  kind : Option String
  platforms : Option (List PlatformRec)
deriving DecidableEq, Repr

/-- `metadata` of a framework document (fields the core reads). -/
structure FwMetadata where
  title : Option String
  platforms : Option (List PlatformRec)
deriving DecidableEq, Repr

/-- `metadata` of a symbol document (fields the core reads). -/
structure SymMetadata where
  title : Option String
  symbolKind : Option String
  platforms : Option (List PlatformRec)
deriving DecidableEq, Repr

/-- One topic section. -/
structure TopicSection where
  title : String
  identifiers : List String
deriving DecidableEq, Repr

/-- A framework document; `references` keeps the `Object.entries`
iteration order of the JSON object (insertion order for these
non-integer keys). -/
structure FrameworkData where
  metadata : Option FwMetadata
  abstract : List AbstractItem
  topicSections : List TopicSection
  references : List (String × Ref)
deriving DecidableEq, Repr

/-- A symbol document. -/
structure SymbolData where
  metadata : Option SymMetadata
  abstract : List AbstractItem
  topicSections : List TopicSection
  references : List (String × Ref)
deriving DecidableEq, Repr

/-- One entry of the technology index. -/
structure Technology where
  title : String
  abstract : List AbstractItem
  url : String
  kind : String
  role : String
  identifier : String
deriving DecidableEq, Repr

/-- A search result (the `SearchResult` interface). -/
structure SearchResult where
  title : String
  description : String
  path : Option String
  framework : String
  symbolKind : Option String
  platforms : String
deriving DecidableEq, Repr

/-- The options object of the search entry points. -/
structure SearchOptions where
  symbolType : Option String := none
  platform : Option String := none
  maxResults : Option Nat := none
deriving DecidableEq, Repr

/-- JS truthiness of an optional string: `undefined` and `''` are falsy. -/
def strTruthy : Option String → Bool
  | none => false
  | some s => s != ""

/-- Template-literal rendering of a possibly-missing string. -/
def jsShowOptStr : Option String → String
  | some s => s
  | none => "undefined"

/-- `a || b` for a possibly-missing string with a string default. -/
def jsOrStr (o : Option String) (dflt : String) : String :=
  match o with
  | some s => if s == "" then dflt else s
  | none => dflt

/-- `extractText`: concatenates the `text` fields of the fragments. -/
def extractText (abstract : List AbstractItem) : String :=
  String.join (abstract.map AbstractItem.text)

/-- `formatPlatforms`: `'All platforms'` when the list is missing or
empty, else `name introducedAt+ (Beta)?` joined with `', '`. -/
def formatPlatforms : Option (List PlatformRec) → String
  | none => "All platforms"
  | some ps =>
    if ps.isEmpty then "All platforms"
    else
      String.intercalate ", " (ps.map fun p =>
        jsShowOptStr p.name ++ " " ++ p.introducedAt ++ "+"
          ++ (if p.beta then " (Beta)" else ""))

/-- `matchesSearch(ref, pattern, options)`.  Note the platform filter is
guarded by `options.platform && ref.platforms`: it runs only when the
entry has a `platforms` array (an empty array is truthy and runs it; a
missing field skips it). -/
def matchesSearch (ref : Ref) (pattern : List GlobTok)
    (options : SearchOptions) : Bool :=
  match ref.title with
  | none => false
  | some t =>
    if t == "" then false
    else if !regexTest pattern t then false
    else
      let stFail := match options.symbolType with
        | some st => st != "" && ref.kind != some st
        | none => false
      if stFail then false
      else
        let platFail := match options.platform, ref.platforms with
          | some pl, some ps =>
            pl != "" && !(ps.any fun p =>
              match p.name with
              | some n => jsIncludes (lowerL n.data) (lowerL pl.data)
              | none => false)
          | _, _ => false
        if platFail then false else true

/-! ### Framework search (`searchFramework`) -/

/-- The `SearchResult` pushed for an accepted reference.  The filter has
already guaranteed a non-empty title; `ref.platforms ||
framework.metadata?.platforms` falls back to the framework's platforms
only when the reference carries none (arrays, even empty, are truthy). -/
def mkSearchResult (fw : FrameworkData) (frameworkName : String) (ref : Ref) :
    SearchResult where
  title := ref.title.getD ""
  description := extractText (ref.abstract.getD [])
  path := ref.url
  framework := frameworkName
  symbolKind := ref.kind
  platforms := formatPlatforms
    (match ref.platforms with
     | some ps => some ps
     | none => fw.metadata.bind FwMetadata.platforms)

/-- The `forEach` collection loop of `searchFramework`: iterates the
whole reference list, but pushes nothing once `maxResults` entries have
been collected. -/
def collectRefs (fw : FrameworkData) (frameworkName : String)
    (pattern : List GlobTok) (options : SearchOptions) (maxResults : Nat) :
    List (String × Ref) → List SearchResult → List SearchResult
  | [], results => results
  | (_, ref) :: rest, results =>
    collectRefs fw frameworkName pattern options maxResults rest
      (if results.length ≥ maxResults then results
       else if matchesSearch ref pattern options then
         results ++ [mkSearchResult fw frameworkName ref]
       else results)

/-- Stable insertion: `x` goes before the first element with a strictly
larger score, after every earlier element with a smaller-or-equal one. -/
def insertByScore {α : Type} (f : α → Nat) (x : α) : List α → List α
  | [] => [x]
  | y :: ys => if f x ≤ f y then x :: y :: ys else y :: insertByScore f x ys

/-- Stable ascending sort by score.  `Array.prototype.sort` with the
comparator `(a, b) => score(a) - score(b)` is guaranteed stable, and a
stable ascending-by-score permutation is unique, so insertion sort
models it exactly. -/
def sortByScore {α : Type} (f : α → Nat) : List α → List α
  | [] => []
  | x :: xs => insertByScore f x (sortByScore f xs)

/-- `searchFramework`, given the already-fetched framework document (the
fetch is modelled at the call sites; a fetch failure makes the whole
call throw).  The pattern is the glob reading of the query, justified by
`createSearchPattern_eq`. -/
def searchFramework (fw : FrameworkData) (frameworkName query : String)
    (options : SearchOptions) : List SearchResult :=
  let maxResults := options.maxResults.getD 20
  let searchPattern := compileGlob query
  sortByScore (fun r => scoreMatch r.title query)
    (collectRefs fw frameworkName searchPattern options maxResults fw.references [])

/-! ### Global search (`searchGlobal`) -/

/-- The per-framework loop of `searchGlobal`: breaks once `maxResults`
results have accumulated, catches and skips individual framework
failures, and hands each framework a sub-cap of `Math.ceil(maxResults/4)`. -/
def searchGlobalLoop (fetchFw : String → Except String FrameworkData)
    (query : String) (options : SearchOptions) (maxResults : Nat) :
    List Technology → List SearchResult → List SearchResult
  | [], results => results
  | fw :: rest, results =>
    if results.length ≥ maxResults then results
    else
      match fetchFw fw.title with
      | Except.error _ => searchGlobalLoop fetchFw query options maxResults rest results
      | Except.ok fwData =>
        searchGlobalLoop fetchFw query options maxResults rest
          (results ++ searchFramework fwData fw.title query
            { symbolType := options.symbolType, platform := options.platform,
              maxResults := some ((maxResults + 3) / 4) })

/-- `searchGlobal`.  `fetchTech` is the outcome of `getTechnologies`
(already projected to the technology list); `fetchFw` is the
per-framework fetch, the only throw site reachable inside the loop
(a `searchFramework` failure is exactly a `getFramework` failure). -/
def searchGlobal (fetchTech : Except String (List Technology))
    (fetchFw : String → Except String FrameworkData)
    (query : String) (options : SearchOptions) :
    Except String (List SearchResult) :=
  let maxResults := options.maxResults.getD 50
  match fetchTech with
  | Except.error e => Except.error ("Global search failed: Error: " ++ e)
  | Except.ok technologies =>
    let frameworks := technologies.filter fun tech =>
      tech.kind == "symbol" && tech.role == "collection"
    let searchFrameworks := frameworks.take 20
    Except.ok
      ((searchGlobalLoop fetchFw query options maxResults searchFrameworks []).take
        maxResults)

/-! ### Request cache (`makeRequest`) -/

/-- One cache entry: the cached document and its write time. -/
structure CacheEntry (α : Type) where
  data : α
  timestamp : Nat
deriving DecidableEq, Repr

/-- `Map.prototype.get`: first (unique) binding of the key. -/
def cacheGet {α : Type} : List (String × CacheEntry α) → String → Option (CacheEntry α)
  | [], _ => none
  | (u, e) :: rest, url => if u == url then some e else cacheGet rest url

/-- `Map.prototype.set`: overwrite in place, else append. -/
def cacheSet {α : Type} :
    List (String × CacheEntry α) → String → CacheEntry α → List (String × CacheEntry α)
  | [], url, e => [(url, e)]
  | (u, x) :: rest, url, e =>
    if u == url then (u, e) :: rest else (u, x) :: cacheSet rest url e

/-- The fixed TTL: ten minutes in milliseconds. -/
def cacheTimeout : Nat := 10 * 60 * 1000

/-- `makeRequest`: serve from the cache when a stored entry is younger
than the TTL, otherwise fetch, overwrite the entry and return.  `now`
is `Date.now()`; `fetch` is the outcome the network would produce; the
final component tells whether an underlying network request happened. -/
def makeRequest {α : Type} (cache : List (String × CacheEntry α)) (url : String)
    (now : Nat) (fetch : Except String α) :
    Except String α × List (String × CacheEntry α) × Bool :=
  let hit : Option α :=
    match cacheGet cache url with
    | some cached =>
      if now - cached.timestamp < cacheTimeout then some cached.data else none
    | none => none
  match hit with
  | some d => (Except.ok d, cache, false)
  | none =>
    match fetch with
    | Except.ok d => (Except.ok d, cacheSet cache url ⟨d, now⟩, true)
    | Except.error e =>
      (Except.error ("Failed to fetch documentation: " ++ e), cache, true)

/-! ### Tool dispatch (server entry file)

`handleGetSymbol` formats a fetched symbol document and catches nothing;
the dispatch handler's single catch wraps any thrown error into
`McpError(InternalError, 'Error executing tool: ' + message)`. -/

/-- A tool invocation's outcome at the protocol boundary. -/
inductive ToolOutcome where
  | success (text : String)
  | mcpError (message : String)
deriving DecidableEq, Repr

/-- `s.substring(0, n)`. -/
def jsSubstring (s : String) (n : Nat) : String := String.mk (s.data.take n)

/-- `data.references?.[id]`. -/
def lookupRef (refs : List (String × Ref)) (id : String) : Option Ref :=
  (refs.find? (fun p => p.1 == id)).map Prod.snd

/-- The markdown body `handleGetSymbol` builds from a fetched symbol
document: header, overview, then per-section reference bullets (first
five identifiers, missing reference ids skipped silently). -/
def renderSymbol (data : SymbolData) : String :=
  let title := jsOrStr (data.metadata.bind SymMetadata.title) "Symbol"
  let kind := jsOrStr (data.metadata.bind SymMetadata.symbolKind) "Unknown"
  let platforms := formatPlatforms (data.metadata.bind SymMetadata.platforms)
  let description := extractText data.abstract
  let base := ["# " ++ title ++ "\n", "**Type:** " ++ kind,
    "**Platforms:** " ++ platforms ++ "\n", "## Overview", description]
  let content :=
    if data.topicSections.length > 0 then
      base ++ ["\n## API Reference\n"]
        ++ data.topicSections.flatMap (fun sec =>
          ["### " ++ sec.title]
            ++ (if sec.identifiers.length > 0 then
                ((sec.identifiers.take 5).filterMap fun id =>
                  (lookupRef data.references id).map fun ref =>
                    let refDesc := extractText (ref.abstract.getD [])
                    "• **" ++ jsShowOptStr ref.title ++ "** - "
                      ++ jsSubstring refDesc 100
                      ++ (if refDesc.length > 100 then "..." else ""))
                  ++ (if sec.identifiers.length > 5 then
                      ["*... and " ++ toString (sec.identifiers.length - 5)
                        ++ " more items*"]
                    else [])
              else [])
            ++ [""])
    else base
  String.intercalate "\n" content

/-- `handleGetSymbol`: renders the fetched document; a fetch failure is
not caught here and propagates to the dispatch handler. -/
def handleGetSymbol (fetchResult : Except String SymbolData) :
    Except String String :=
  match fetchResult with
  | Except.error e => Except.error e
  | Except.ok data => Except.ok (renderSymbol data)

/-- The `CallToolRequest` dispatch for `get_symbol`: the handler's only
catch turns any thrown error into an `McpError` carrying the raw
message. -/
def callToolGetSymbol (fetchResult : Except String SymbolData) : ToolOutcome :=
  match handleGetSymbol fetchResult with
  | Except.ok text => ToolOutcome.success text
  | Except.error e => ToolOutcome.mcpError ("Error executing tool: " ++ e)

/-! ### Global search as the specification words it (for refinement) -/

/-- Global Search per the specification's wording: candidates are the
index-order technologies with kind `"symbol"` and role `"collection"`,
capped to the first 20; candidates are visited in order only while the
accumulated count is below `maxResults`; each visited candidate
contributes a Framework Search capped at `ceil(maxResults/4)` (its
failure skips just that candidate); the concatenation is truncated to
`maxResults` with no cross-framework re-ranking. -/
def globalSearchPerSpec (fetchFw : String → Except String FrameworkData)
    (query : String) (options : SearchOptions)
    (technologies : List Technology) : List SearchResult :=
  let maxResults := options.maxResults.getD 50
  let candidates :=
    (technologies.filter fun tech =>
      tech.kind == "symbol" && tech.role == "collection").take 20
  let subCap := (maxResults + 3) / 4
  (candidates.foldl
    (fun acc fw =>
      if acc.length < maxResults then
        match fetchFw fw.title with
        | Except.ok fwData =>
          acc ++ searchFramework fwData fw.title query
            { symbolType := options.symbolType, platform := options.platform,
              maxResults := some subCap }
        | Except.error _ => acc
      else acc)
    []).take maxResults

/-! ### Concrete fixtures used by witnesses and counterexamples -/

/-- An iOS availability record. -/
def iosPlatform : PlatformRec :=
  { name := some "iOS", introducedAt := "13.0", beta := false }

/-- A reference with a matching title and no platform data at all. -/
def sampleRefNoPlatforms : Ref :=
  { title := some "UIView", abstract := none,
    url := some "/documentation/uikit/uiview", kind := some "class",
    platforms := none }

/-- A reference carrying an iOS availability record. -/
def sampleRefIos : Ref :=
  { title := some "UIViewController", abstract := none, url := none,
    kind := some "class", platforms := some [iosPlatform] }

/-- Options with only the platform filter set. -/
def platformIosOptions : SearchOptions :=
  { symbolType := none, platform := some "iOS", maxResults := none }

/-- A small framework document with four references. -/
def sampleFramework : FrameworkData :=
  { metadata := some { title := some "UIKit", platforms := some [iosPlatform] },
    abstract := [], topicSections := [],
    references :=
      [("r1", { title := some "UIViewController", abstract := none, url := none,
                kind := some "class", platforms := none }),
       ("r2", { title := some "MyController", abstract := none, url := none,
                kind := some "class", platforms := none }),
       ("r3", { title := some "Controller", abstract := none, url := none,
                kind := some "class", platforms := none }),
       ("r4", { title := some "ControllerExtra", abstract := none, url := none,
                kind := some "class", platforms := none })] }

/-- A framework technology whose document fetch fails. -/
def techAlpha : Technology :=
  { title := "Alpha", abstract := [], url := "", kind := "symbol",
    role := "collection", identifier := "a" }

/-- A framework technology whose document fetch succeeds. -/
def techBeta : Technology :=
  { title := "Beta", abstract := [], url := "", kind := "symbol",
    role := "collection", identifier := "b" }

/-- A per-framework fetch that fails for `Alpha` and succeeds otherwise. -/
def sampleFetchFw : String → Except String FrameworkData :=
  fun name =>
    if name == "Alpha" then Except.error "network down"
    else Except.ok sampleFramework

theorem jsStartsWith_iff (s p : List Char) :
    jsStartsWith s p = true ↔ ∃ r, s = p ++ r := by
  induction p generalizing s with
  | nil => simp [jsStartsWith]
  | cons d p ih =>
    cases s with
    | nil => simp [jsStartsWith]
    | cons c s =>
      simp only [jsStartsWith, Bool.and_eq_true, beq_iff_eq, ih, List.cons_append]
      constructor
      · rintro ⟨rfl, r, rfl⟩; exact ⟨r, rfl⟩
      · rintro ⟨r, h⟩
        cases h
        exact ⟨rfl, r, rfl⟩

theorem jsIncludes_iff (s p : List Char) :
    jsIncludes s p = true ↔ ∃ l r, s = l ++ p ++ r := by
  induction s with
  | nil =>
    simp only [jsIncludes, jsStartsWith_iff]
    constructor
    · rintro ⟨r, h⟩; exact ⟨[], r, by simpa using h⟩
    · rintro ⟨l, r, h⟩
      have hl : l = [] := by
        cases l with
        | nil => rfl
        | cons x xs => simp at h
      subst hl
      exact ⟨r, by simpa using h⟩
  | cons c s ih =>
    simp only [jsIncludes, Bool.or_eq_true, jsStartsWith_iff, ih]
    constructor
    · rintro (⟨r, h⟩ | ⟨l, r, h⟩)
      · exact ⟨[], r, by simpa using h⟩
      · exact ⟨c :: l, r, by simp [h]⟩
    · rintro ⟨l, r, h⟩
      cases l with
      | nil => exact Or.inl ⟨r, by simpa using h⟩
      | cons x xs =>
        simp only [List.cons_append, List.cons.injEq] at h
        exact Or.inr ⟨xs, r, by simp [h.2]⟩

theorem jsStartsWith_nil (s : List Char) : jsStartsWith s [] = true := by
  cases s <;> rfl

theorem replaceStar_cons_of_ne (c : Char) (l : List Char)
    (h : c ≠ '\\' ∨ l.head? ≠ some '*') :
    replaceStar (c :: l) = c :: replaceStar l := by
  cases l with
  | nil => rfl
  | cons d rest =>
    have hne : ¬(c = '\\' ∧ d = '*') := by
      rintro ⟨rfl, rfl⟩
      rcases h with h | h
      · exact h rfl
      · exact h rfl
    simp [replaceStar, hne]

theorem replaceQm_cons_of_ne (c : Char) (l : List Char)
    (h : c ≠ '\\' ∨ l.head? ≠ some '?') :
    replaceQm (c :: l) = c :: replaceQm l := by
  cases l with
  | nil => rfl
  | cons d rest =>
    have hne : ¬(c = '\\' ∧ d = '?') := by
      rintro ⟨rfl, rfl⟩
      rcases h with h | h
      · exact h rfl
      · exact h rfl
    simp [replaceQm, hne]

theorem escaped_cons (c : Char) (q : List Char) :
    escaped (c :: q) = escapeChar c ++ escaped q := by
  simp [escaped]

theorem escaped_head_ne_star (q : List Char) : (escaped q).head? ≠ some '*' := by
  cases q with
  | nil => simp [escaped]
  | cons c q =>
    rw [escaped_cons]
    by_cases h : c ∈ metaChars
    · rw [show escapeChar c = ['\\', c] from by simp [escapeChar, h]]
      simp
    · have hc : c ≠ '*' := fun hc => h (hc ▸ (by decide : ('*' : Char) ∈ metaChars))
      rw [show escapeChar c = [c] from by simp [escapeChar, h]]
      simp [hc]

theorem replaceStar_escaped (q : List Char) :
    replaceStar (escaped q) = q.flatMap starUnit := by
  induction q with
  | nil => rfl
  | cons c q ih =>
    rw [escaped_cons, List.flatMap_cons]
    by_cases hm : c ∈ metaChars
    · rw [show escapeChar c = ['\\', c] from by simp [escapeChar, hm]]
      by_cases hstar : c = '*'
      · subst hstar
        show replaceStar ('\\' :: '*' :: escaped q) = _
        rw [show replaceStar ('\\' :: '*' :: escaped q)
              = '.' :: '*' :: replaceStar (escaped q) from by simp [replaceStar]]
        rw [ih, show starUnit '*' = ['.', '*'] from by simp [starUnit]]
        rfl
      · show replaceStar ('\\' :: c :: escaped q) = _
        by_cases hbs : c = '\\'
        · subst hbs
          rw [replaceStar_cons_of_ne '\\' ('\\' :: escaped q) (Or.inr (by simp)),
            replaceStar_cons_of_ne '\\' (escaped q) (Or.inr (escaped_head_ne_star q)), ih,
            show starUnit '\\' = ['\\', '\\'] from by simp [starUnit, metaChars]]
          rfl
        · rw [replaceStar_cons_of_ne '\\' (c :: escaped q) (Or.inr (by simp [hstar])),
            replaceStar_cons_of_ne c (escaped q) (Or.inl hbs), ih,
            show starUnit c = ['\\', c] from by simp [starUnit, hstar, hm]]
          rfl
    · have hbs : c ≠ '\\' := fun hc => hm (hc ▸ (by decide : ('\\' : Char) ∈ metaChars))
      have hstar : c ≠ '*' := fun hc => hm (hc ▸ (by decide : ('*' : Char) ∈ metaChars))
      rw [show escapeChar c = [c] from by simp [escapeChar, hm]]
      show replaceStar (c :: escaped q) = _
      rw [replaceStar_cons_of_ne c (escaped q) (Or.inl hbs), ih,
        show starUnit c = [c] from by simp [starUnit, hstar, hm]]
      rfl

theorem starUnits_head_ne (q : List Char) (x : Char)
    (hdot : x ≠ '.') (hbs : x ≠ '\\') (hmeta : x ∈ metaChars) :
    (q.flatMap starUnit).head? ≠ some x := by
  cases q with
  | nil => simp
  | cons c q =>
    rw [List.flatMap_cons]
    by_cases hstar : c = '*'
    · rw [show starUnit c = ['.', '*'] from by simp [starUnit, hstar]]
      simp [Ne.symm hdot]
    · by_cases hm : c ∈ metaChars
      · rw [show starUnit c = ['\\', c] from by simp [starUnit, hstar, hm]]
        simp [Ne.symm hbs]
      · have hcx : c ≠ x := fun hc => hm (hc ▸ hmeta)
        rw [show starUnit c = [c] from by simp [starUnit, hstar, hm]]
        simp [hcx]

theorem replaceQm_starUnits (q : List Char) :
    replaceQm (q.flatMap starUnit) = q.flatMap globUnit := by
  induction q with
  | nil => rfl
  | cons c q ih =>
    rw [List.flatMap_cons, List.flatMap_cons]
    by_cases hstar : c = '*'
    · subst hstar
      rw [show starUnit '*' = ['.', '*'] from by simp [starUnit]]
      show replaceQm ('.' :: '*' :: q.flatMap starUnit) = globUnit '*' ++ q.flatMap globUnit
      rw [replaceQm_cons_of_ne '.' _ (Or.inl (by decide)),
        replaceQm_cons_of_ne '*' _ (Or.inl (by decide)), ih,
        show globUnit '*' = ['.', '*'] from by simp [globUnit]]
      rfl
    · by_cases hqm : c = '?'
      · subst hqm
        rw [show starUnit '?' = ['\\', '?'] from by simp [starUnit, metaChars]]
        show replaceQm ('\\' :: '?' :: q.flatMap starUnit) = globUnit '?' ++ q.flatMap globUnit
        rw [show ∀ l, replaceQm ('\\' :: '?' :: l) = '.' :: replaceQm l from
            fun l => by simp [replaceQm], ih,
          show globUnit '?' = ['.'] from by simp [globUnit]]
        rfl
      · by_cases hm : c ∈ metaChars
        · rw [show starUnit c = ['\\', c] from by simp [starUnit, hstar, hm],
            show globUnit c = ['\\', c] from by simp [globUnit, hstar, hqm, hm]]
          show replaceQm ('\\' :: c :: q.flatMap starUnit) = ['\\', c] ++ q.flatMap globUnit
          by_cases hbs : c = '\\'
          · subst hbs
            rw [replaceQm_cons_of_ne '\\' _ (Or.inr (by simp)),
              replaceQm_cons_of_ne '\\' _
                (Or.inr (starUnits_head_ne q '?' (by decide) (by decide) (by decide))), ih]
            rfl
          · rw [replaceQm_cons_of_ne '\\' _ (Or.inr (by simp [hqm])),
              replaceQm_cons_of_ne c _ (Or.inl hbs), ih]
            rfl
        · have hbs : c ≠ '\\' := fun hc => hm (hc ▸ (by decide : ('\\' : Char) ∈ metaChars))
          rw [show starUnit c = [c] from by simp [starUnit, hstar, hm],
            show globUnit c = [c] from by simp [globUnit, hstar, hqm, hm]]
          show replaceQm (c :: q.flatMap starUnit) = [c] ++ q.flatMap globUnit
          rw [replaceQm_cons_of_ne c _ (Or.inl hbs), ih]
          rfl

theorem parsePattern_esc (c : Char) (l : List Char) :
    parsePattern ('\\' :: c :: l) = (parsePattern l).map (GlobTok.lit c :: ·) := by
  rw [parsePattern.eq_def]
  simp

theorem parsePattern_dotstar (l : List Char) :
    parsePattern ('.' :: '*' :: l) = (parsePattern l).map (GlobTok.star :: ·) := by
  rw [parsePattern.eq_def]
  simp

theorem parsePattern_dot (l : List Char) (h : l.head? ≠ some '*') :
    parsePattern ('.' :: l) = (parsePattern l).map (GlobTok.anyChar :: ·) := by
  cases l with
  | nil =>
    rw [parsePattern.eq_def]
    simp [parsePattern]
  | cons d rest =>
    have hd : d ≠ '*' := fun hc => h (by simp [hc])
    rw [parsePattern.eq_def]
    simp [hd]

theorem parsePattern_lit (c : Char) (l : List Char) (hm : c ∉ metaChars) :
    parsePattern (c :: l) = (parsePattern l).map (GlobTok.lit c :: ·) := by
  have hbs : c ≠ '\\' := fun hc => hm (hc ▸ (by decide : ('\\' : Char) ∈ metaChars))
  have hdot : c ≠ '.' := fun hc => hm (hc ▸ (by decide : ('.' : Char) ∈ metaChars))
  rw [parsePattern.eq_def]
  simp [hbs, hdot, hm]

theorem globUnits_head_ne_star (q : List Char) :
    (q.flatMap globUnit).head? ≠ some '*' := by
  cases q with
  | nil => simp
  | cons c q =>
    rw [List.flatMap_cons]
    by_cases hstar : c = '*'
    · rw [show globUnit c = ['.', '*'] from by simp [globUnit, hstar]]
      simp
    · by_cases hqm : c = '?'
      · rw [show globUnit c = ['.'] from by simp [globUnit, hstar, hqm]]
        simp
      · by_cases hm : c ∈ metaChars
        · rw [show globUnit c = ['\\', c] from by simp [globUnit, hstar, hqm, hm]]
          simp
        · rw [show globUnit c = [c] from by simp [globUnit, hstar, hqm, hm]]
          simp [hstar]

theorem parse_globUnits (q : List Char) :
    parsePattern (q.flatMap globUnit) = some (q.map tokOfChar) := by
  induction q with
  | nil => rfl
  | cons c q ih =>
    rw [List.flatMap_cons, List.map_cons]
    by_cases hstar : c = '*'
    · subst hstar
      rw [show globUnit '*' = ['.', '*'] from by simp [globUnit]]
      show parsePattern ('.' :: '*' :: q.flatMap globUnit)
        = some (tokOfChar '*' :: q.map tokOfChar)
      rw [parsePattern_dotstar, ih]
      simp [tokOfChar]
    · by_cases hqm : c = '?'
      · subst hqm
        rw [show globUnit '?' = ['.'] from by simp [globUnit]]
        show parsePattern ('.' :: q.flatMap globUnit)
          = some (tokOfChar '?' :: q.map tokOfChar)
        rw [parsePattern_dot _ (globUnits_head_ne_star q), ih]
        simp [tokOfChar]
      · by_cases hm : c ∈ metaChars
        · rw [show globUnit c = ['\\', c] from by simp [globUnit, hstar, hqm, hm]]
          show parsePattern ('\\' :: c :: q.flatMap globUnit)
            = some (tokOfChar c :: q.map tokOfChar)
          rw [parsePattern_esc, ih]
          simp [tokOfChar, hstar, hqm]
        · rw [show globUnit c = [c] from by simp [globUnit, hstar, hqm, hm]]
          show parsePattern (c :: q.flatMap globUnit)
            = some (tokOfChar c :: q.map tokOfChar)
          rw [parsePattern_lit c _ hm, ih]
          simp [tokOfChar, hstar, hqm]

/-- `createSearchPattern` always succeeds and produces exactly the glob
reading of the query: `*` becomes `.*`, `?` becomes `.`, every other
character (metacharacters included) becomes an escaped literal. -/
theorem createSearchPattern_eq (q : String) :
    createSearchPattern q = some (compileGlob q) := by
  unfold createSearchPattern patternString compileGlob
  rw [replaceStar_escaped, replaceQm_starUnits, parse_globUnits]

theorem matchHere_iff (ps : List GlobTok) (ds : List Char) :
    matchHere ps ds = true ↔ ∃ mid rest, ds = mid ++ rest ∧ GlobMatch ps mid := by
  induction ps generalizing ds with
  | nil =>
    simp only [matchHere, true_iff]
    exact ⟨[], ds, rfl, GlobMatch.nil⟩
  | cons tok ps ih =>
    cases tok with
    | lit c =>
      cases ds with
      | nil =>
        simp only [matchHere, Bool.false_eq_true, false_iff]
        rintro ⟨mid, rest, h, gm⟩
        rcases List.append_eq_nil.mp h.symm with ⟨rfl, -⟩
        cases gm
      | cons d ds =>
        simp only [matchHere, Bool.and_eq_true, ih]
        constructor
        · rintro ⟨hc, mid, rest, rfl, gm⟩
          exact ⟨d :: mid, rest, rfl, GlobMatch.lit hc gm⟩
        · rintro ⟨mid, rest, h, gm⟩
          cases gm with
          | lit hc gm' =>
            simp only [List.cons_append, List.cons.injEq] at h
            exact ⟨h.1 ▸ hc, _, rest, h.2, gm'⟩
    | anyChar =>
      cases ds with
      | nil =>
        simp only [matchHere, Bool.false_eq_true, false_iff]
        rintro ⟨mid, rest, h, gm⟩
        rcases List.append_eq_nil.mp h.symm with ⟨rfl, -⟩
        cases gm
      | cons d ds =>
        simp only [matchHere, Bool.and_eq_true, ih]
        constructor
        · rintro ⟨hc, mid, rest, rfl, gm⟩
          exact ⟨d :: mid, rest, rfl, GlobMatch.anyChar hc gm⟩
        · rintro ⟨mid, rest, h, gm⟩
          cases gm with
          | anyChar hc gm' =>
            simp only [List.cons_append, List.cons.injEq] at h
            exact ⟨h.1 ▸ hc, _, rest, h.2, gm'⟩
    | star =>
      simp only [matchHere, List.any_eq_true, List.mem_range, Bool.and_eq_true,
        List.all_eq_true, ih]
      constructor
      · rintro ⟨i, -, hdots, mid, rest, hdrop, gm⟩
        refine ⟨ds.take i ++ mid, rest, ?_, GlobMatch.star hdots gm⟩
        conv_lhs => rw [← List.take_append_drop i ds]
        rw [hdrop, List.append_assoc]
      · rintro ⟨mid, rest, h, gm⟩
        cases gm with
        | @star ps' pre post hdots gm' =>
          refine ⟨pre.length, ?_, ?_, post, rest, ?_, gm'⟩
          · have : pre.length ≤ ds.length := by
              rw [h, List.append_assoc, List.length_append]
              exact Nat.le_add_right pre.length (post ++ rest).length
            omega
          · intro c hc
            have hds : ds.take pre.length = pre := by
              rw [h, List.append_assoc, List.take_left]
            exact hdots c (hds ▸ hc)
          · rw [h, List.append_assoc, List.drop_left]

theorem searchFrom_iff (ps : List GlobTok) (s : List Char) :
    searchFrom ps s = true ↔
      ∃ pre mid rest, s = pre ++ mid ++ rest ∧ GlobMatch ps mid := by
  induction s with
  | nil =>
    simp only [searchFrom, matchHere_iff]
    constructor
    · rintro ⟨mid, rest, h, gm⟩
      exact ⟨[], mid, rest, by simpa using h, gm⟩
    · rintro ⟨pre, mid, rest, h, gm⟩
      rcases List.append_eq_nil.mp h.symm with ⟨h1, rfl⟩
      rcases List.append_eq_nil.mp h1 with ⟨rfl, rfl⟩
      exact ⟨[], [], rfl, gm⟩
  | cons c s ih =>
    simp only [searchFrom, Bool.or_eq_true, matchHere_iff, ih]
    constructor
    · rintro (⟨mid, rest, h, gm⟩ | ⟨pre, mid, rest, h, gm⟩)
      · exact ⟨[], mid, rest, by simpa using h, gm⟩
      · exact ⟨c :: pre, mid, rest, by simp [h], gm⟩
    · rintro ⟨pre, mid, rest, h, gm⟩
      cases pre with
      | nil => exact Or.inl ⟨mid, rest, by simpa using h, gm⟩
      | cons c' pre =>
        simp only [List.cons_append, List.cons.injEq] at h
        exact Or.inr ⟨pre, mid, rest, h.2, gm⟩

theorem regexTest_iff (ps : List GlobTok) (t : String) :
    regexTest ps t = true ↔
      ∃ pre mid rest, t.data = pre ++ mid ++ rest ∧ GlobMatch ps mid :=
  searchFrom_iff ps t.data

theorem globMatch_lit_iff (q mid : List Char) :
    GlobMatch (q.map GlobTok.lit) mid ↔ lowerL q = lowerL mid := by
  induction q generalizing mid with
  | nil =>
    simp only [List.map_nil, lowerL]
    constructor
    · rintro gm
      cases gm
      rfl
    · intro h
      have : mid = [] := by
        cases mid with
        | nil => rfl
        | cons d ds => simp at h
      exact this ▸ GlobMatch.nil
  | cons c q ih =>
    cases mid with
    | nil =>
      simp only [List.map_cons, lowerL, List.map_nil]
      constructor
      · rintro gm
        cases gm
      · intro h
        simp [lowerL] at h
    | cons d ds =>
      simp only [List.map_cons, lowerL, List.cons.injEq]
      constructor
      · rintro gm
        cases gm with
        | lit hc gm' =>
          exact ⟨beq_iff_eq.mp hc, (ih ds).mp gm'⟩
      · rintro ⟨h1, h2⟩
        exact GlobMatch.lit (beq_iff_eq.mpr h1) ((ih ds).mpr h2)

theorem regexTest_lit_iff (q t : String)
    (h : ∀ c ∈ q.data, c ≠ '*' ∧ c ≠ '?') :
    regexTest (compileGlob q) t = true ↔
      ∃ l r, lowerL t.data = l ++ lowerL q.data ++ r := by
  have hmap : compileGlob q = q.data.map GlobTok.lit := by
    unfold compileGlob
    exact List.map_congr_left fun c hc => by simp [tokOfChar, (h c hc).1, (h c hc).2]
  rw [hmap, regexTest_iff]
  constructor
  · rintro ⟨pre, mid, rest, hsplit, gm⟩
    rw [globMatch_lit_iff] at gm
    refine ⟨lowerL pre, lowerL rest, ?_⟩
    unfold lowerL at gm ⊢
    rw [hsplit]
    simp only [List.map_append]
    rw [gm]
  · rintro ⟨l, r, hlr⟩
    refine ⟨t.data.take l.length, (t.data.drop l.length).take q.data.length,
      (t.data.drop l.length).drop q.data.length, ?_, ?_⟩
    · rw [List.append_assoc, List.take_append_drop, List.take_append_drop]
    · rw [globMatch_lit_iff]
      have hmid : lowerL ((t.data.drop l.length).take q.data.length)
          = lowerL q.data := by
        have hlen : q.data.length = (lowerL q.data).length := by
          simp [lowerL]
        unfold lowerL
        rw [List.map_take, List.map_drop]
        show (((lowerL t.data).drop l.length).take q.data.length) = lowerL q.data
        rw [hlr, List.append_assoc, List.drop_left, hlen, List.take_left]
      exact hmid.symm

/-! ### Sorting lemmas -/

theorem length_insertByScore {α : Type} (f : α → Nat) (x : α) (l : List α) :
    (insertByScore f x l).length = l.length + 1 := by
  induction l with
  | nil => rfl
  | cons y ys ih =>
    by_cases h : f x ≤ f y <;> simp [insertByScore, h, ih]

theorem length_sortByScore {α : Type} (f : α → Nat) (l : List α) :
    (sortByScore f l).length = l.length := by
  induction l with
  | nil => rfl
  | cons x xs ih => simp [sortByScore, length_insertByScore, ih]

theorem mem_insertByScore {α : Type} (f : α → Nat) (x a : α) (l : List α) :
    a ∈ insertByScore f x l ↔ a = x ∨ a ∈ l := by
  induction l with
  | nil => simp [insertByScore]
  | cons y ys ih =>
    by_cases h : f x ≤ f y
    · simp [insertByScore, h]
    · simp only [insertByScore, if_neg h, List.mem_cons, ih]
      tauto

theorem mem_sortByScore {α : Type} (f : α → Nat) (a : α) (l : List α) :
    a ∈ sortByScore f l ↔ a ∈ l := by
  induction l with
  | nil => simp [sortByScore]
  | cons x xs ih => simp [sortByScore, mem_insertByScore, ih]

theorem pairwise_insertByScore {α : Type} (f : α → Nat) (x : α) (l : List α)
    (h : List.Pairwise (fun a b => f a ≤ f b) l) :
    List.Pairwise (fun a b => f a ≤ f b) (insertByScore f x l) := by
  induction l with
  | nil => simp [insertByScore]
  | cons y ys ih =>
    rcases List.pairwise_cons.mp h with ⟨hy, hys⟩
    by_cases hxy : f x ≤ f y
    · simp only [insertByScore, if_pos hxy]
      refine List.pairwise_cons.mpr ⟨?_, h⟩
      intro b hb
      rcases List.mem_cons.mp hb with rfl | hb
      · exact hxy
      · exact le_trans hxy (hy b hb)
    · simp only [insertByScore, if_neg hxy]
      refine List.pairwise_cons.mpr ⟨?_, ih hys⟩
      intro b hb
      rcases (mem_insertByScore f x b ys).mp hb with rfl | hb
      · omega
      · exact hy b hb

theorem pairwise_sortByScore {α : Type} (f : α → Nat) (l : List α) :
    List.Pairwise (fun a b => f a ≤ f b) (sortByScore f l) := by
  induction l with
  | nil => simp [sortByScore]
  | cons x xs ih => exact pairwise_insertByScore f x _ ih

theorem filter_insertByScore {α : Type} (f : α → Nat) (x : α) (l : List α) (s : Nat) :
    (insertByScore f x l).filter (fun a => f a == s)
      = (x :: l).filter (fun a => f a == s) := by
  induction l with
  | nil => rfl
  | cons y ys ih =>
    by_cases hxy : f x ≤ f y
    · simp [insertByScore, hxy]
    · have hlt : f y < f x := Nat.lt_of_not_le hxy
      simp only [insertByScore, if_neg hxy]
      by_cases hxs : f x = s
      · have hys : ¬f y = s := by omega
        simp [List.filter_cons, ih, hxs, hys]
      · simp [List.filter_cons, ih, hxs]

theorem filter_sortByScore {α : Type} (f : α → Nat) (l : List α) (s : Nat) :
    (sortByScore f l).filter (fun a => f a == s)
      = l.filter (fun a => f a == s) := by
  induction l with
  | nil => rfl
  | cons x xs ih =>
    rw [sortByScore, filter_insertByScore]
    simp [List.filter_cons, ih]

/-! ### Collection-loop lemmas -/

theorem collectRefs_length (fw : FrameworkData) (fn : String)
    (pattern : List GlobTok) (options : SearchOptions) (maxResults : Nat) :
    ∀ (refs : List (String × Ref)) (acc : List SearchResult),
      acc.length ≤ maxResults →
      (collectRefs fw fn pattern options maxResults refs acc).length ≤ maxResults := by
  intro refs
  induction refs with
  | nil =>
    intro acc h
    simpa [collectRefs] using h
  | cons pr rest ih =>
    intro acc h
    obtain ⟨id, ref⟩ := pr
    rw [collectRefs]
    apply ih
    by_cases h1 : acc.length ≥ maxResults
    · rw [if_pos h1]; exact h
    · rw [if_neg h1]
      by_cases h2 : matchesSearch ref pattern options
      · rw [if_pos h2, List.length_append]
        simp only [List.length_cons, List.length_nil]
        omega
      · rw [if_neg h2]; exact h

theorem collectRefs_mem (fw : FrameworkData) (fn : String)
    (pattern : List GlobTok) (options : SearchOptions) (maxResults : Nat) :
    ∀ (refs : List (String × Ref)) (acc : List SearchResult) (r : SearchResult),
      r ∈ collectRefs fw fn pattern options maxResults refs acc →
      r ∈ acc ∨ ∃ id ref, (id, ref) ∈ refs ∧
        matchesSearch ref pattern options = true ∧ r = mkSearchResult fw fn ref := by
  intro refs
  induction refs with
  | nil =>
    intro acc r h
    exact Or.inl (by simpa [collectRefs] using h)
  | cons pr rest ih =>
    intro acc r h
    obtain ⟨id, ref⟩ := pr
    rw [collectRefs] at h
    rcases ih _ r h with hacc | ⟨id', ref', hmem, hm, hr⟩
    · by_cases h1 : acc.length ≥ maxResults
      · rw [if_pos h1] at hacc; exact Or.inl hacc
      · rw [if_neg h1] at hacc
        by_cases h2 : matchesSearch ref pattern options
        · rw [if_pos h2] at hacc
          rcases List.mem_append.mp hacc with h3 | h3
          · exact Or.inl h3
          · exact Or.inr ⟨id, ref, List.mem_cons_self _ _, h2, by simpa using h3⟩
        · rw [if_neg h2] at hacc; exact Or.inl hacc
    · exact Or.inr ⟨id', ref', List.mem_cons_of_mem _ hmem, hm, hr⟩

/-! ### Global-loop lemmas -/

theorem searchGlobalLoop_skip (fetchFw : String → Except String FrameworkData)
    (query : String) (options : SearchOptions) (maxResults : Nat)
    (fw : Technology) (rest : List Technology) (results : List SearchResult)
    (e : String) (he : fetchFw fw.title = Except.error e)
    (hlen : results.length < maxResults) :
    searchGlobalLoop fetchFw query options maxResults (fw :: rest) results
      = searchGlobalLoop fetchFw query options maxResults rest results := by
  rw [searchGlobalLoop, if_neg (by omega), he]

/-! ### Cache lemmas -/

theorem cacheGet_cacheSet_self {α : Type} (c : List (String × CacheEntry α))
    (url : String) (e : CacheEntry α) :
    cacheGet (cacheSet c url e) url = some e := by
  induction c with
  | nil => simp [cacheSet, cacheGet]
  | cons p rest ih =>
    obtain ⟨u, x⟩ := p
    by_cases h : u = url
    · simp [cacheSet, cacheGet, h]
    · simp [cacheSet, cacheGet, h, ih]

theorem cacheGet_cacheSet_other {α : Type} (c : List (String × CacheEntry α))
    (url url' : String) (e : CacheEntry α) (h : url' ≠ url) :
    cacheGet (cacheSet c url e) url' = cacheGet c url' := by
  induction c with
  | nil => simp [cacheSet, cacheGet, Ne.symm h]
  | cons p rest ih =>
    obtain ⟨u, x⟩ := p
    by_cases hu : u = url
    · subst hu
      simp [cacheSet, cacheGet, Ne.symm h]
    · simp [cacheSet, cacheGet, hu, ih]

/-! ### Claim theorems -/

/-- C9: for every input string, including strings containing regex
metacharacters such as `.`, `+`, `^`, `$`, braces, parentheses,
brackets, backslash and pipe, `createSearchPattern` compiles to a valid
pattern without throwing: the escaping rewrite always yields a
well-formed regular expression (the parser modelling `new RegExp` never
returns `none`). -/
theorem c9_createSearchPattern_never_fails (q : String) :
    ∃ pattern, createSearchPattern q = some pattern :=
  ⟨compileGlob q, createSearchPattern_eq q⟩

/-- C4 counterexample: the claim says `?` matches exactly one arbitrary
character, but the compiled pattern is `new RegExp(".", 'i')` and `.`
without the `s` flag does not match a line terminator: the one-character
title `"\n"` is rejected. -/
theorem c4_counterexample :
    createSearchPattern "?" = some [GlobTok.anyChar]
      ∧ "\n".length = 1
      ∧ regexTest [GlobTok.anyChar] "\n" = false := by
  decide

/-- C4 amended: `createSearchPattern` compiles every query to a
case-insensitive, unanchored predicate in which `*` matches zero or
more characters other than line terminators, `?` matches exactly one
character other than a line terminator, and every other character
matches itself literally (case-insensitively); consequently, for every
query containing no `*` or `?`, the predicate holds on a title if and
only if the query is a case-insensitive substring of the title. -/
theorem c4_createSearchPattern_semantics (query title : String) :
    createSearchPattern query = some (compileGlob query)
      ∧ (regexTest (compileGlob query) title = true ↔
          ∃ pre mid rest, title.data = pre ++ mid ++ rest
            ∧ GlobMatch (compileGlob query) mid)
      ∧ ((∀ c ∈ query.data, c ≠ '*' ∧ c ≠ '?') →
          (regexTest (compileGlob query) title = true ↔
            ∃ l r, lowerL title.data = l ++ lowerL query.data ++ r)) :=
  ⟨createSearchPattern_eq query, regexTest_iff _ title,
    fun h => regexTest_lit_iff query title h⟩

/-- Witness for C4: the wildcard-free query `"View"` matches the title
`"MyViewController"` through the unanchored, case-insensitive substring
reading. -/
theorem c4_witness :
    regexTest (compileGlob "View") "MyViewController" = true :=
  ((c4_createSearchPattern_semantics "View" "MyViewController").2.2
    (by decide)).mpr ⟨lowerL "My".data, lowerL "Controller".data, by decide⟩

/-- C3 counterexample: for title `"a"` and query `"a?"`, stripping both
wildcard characters from the query yields `"a"`, equal to the title, so
the claim demands score 0; the code strips only `*`, keeps the `?`, and
returns 3. -/
theorem c3_counterexample :
    lowerL "a".data
        = lowerL ("a?".data.filter (fun c => !(c == '*' || c == '?')))
      ∧ scoreMatch "a" "a?" = 3 := by
  decide

/-- C3 amended: `scoreMatch(title, query)` equals 0 iff the lowercased
title equals the lowercased query with only its `*` characters stripped
(`?` is kept); else 1 iff the title starts with that stripped query;
else 2 iff the title contains it; else 3. -/
theorem c3_scoreMatch_tiers (title query : String) :
    (scoreMatch title query = 0 ↔
        lowerL title.data = lowerL (stripStars query.data))
      ∧ (scoreMatch title query = 1 ↔
          lowerL title.data ≠ lowerL (stripStars query.data)
            ∧ ∃ r, lowerL title.data = lowerL (stripStars query.data) ++ r)
      ∧ (scoreMatch title query = 2 ↔
          lowerL title.data ≠ lowerL (stripStars query.data)
            ∧ (¬∃ r, lowerL title.data = lowerL (stripStars query.data) ++ r)
            ∧ ∃ l r, lowerL title.data
                = l ++ lowerL (stripStars query.data) ++ r)
      ∧ (scoreMatch title query = 3 ↔
          ¬∃ l r, lowerL title.data
            = l ++ lowerL (stripStars query.data) ++ r) := by
  have hsw := jsStartsWith_iff (lowerL title.data) (lowerL (stripStars query.data))
  have hinc := jsIncludes_iff (lowerL title.data) (lowerL (stripStars query.data))
  by_cases h0 : lowerL title.data = lowerL (stripStars query.data)
  · have hs : scoreMatch title query = 0 := by simp [scoreMatch, h0]
    rw [hs]
    refine ⟨iff_of_true rfl h0, iff_of_false (by omega) (fun h => h.1 h0),
      iff_of_false (by omega) (fun h => h.1 h0),
      iff_of_false (by omega) (fun hne => hne ⟨[], [], by simp [h0]⟩)⟩
  · by_cases h1 : jsStartsWith (lowerL title.data) (lowerL (stripStars query.data)) = true
    · have hs : scoreMatch title query = 1 := by simp [scoreMatch, h0, h1]
      rw [hs]
      obtain ⟨r, hr⟩ := hsw.mp h1
      refine ⟨iff_of_false (by omega) h0, iff_of_true rfl ⟨h0, r, hr⟩,
        iff_of_false (by omega) (fun h => h.2.1 ⟨r, hr⟩),
        iff_of_false (by omega) (fun hne => hne ⟨[], r, by simp [hr]⟩)⟩
    · by_cases h2 : jsIncludes (lowerL title.data) (lowerL (stripStars query.data)) = true
      · have hs : scoreMatch title query = 2 := by simp [scoreMatch, h0, h1, h2]
        rw [hs]
        obtain ⟨l, r, hlr⟩ := hinc.mp h2
        refine ⟨iff_of_false (by omega) h0,
          iff_of_false (by omega) (fun h => h1 (hsw.mpr h.2)),
          iff_of_true rfl ⟨h0, fun hex => h1 (hsw.mpr hex), l, r, hlr⟩,
          iff_of_false (by omega) (fun hne => hne ⟨l, r, hlr⟩)⟩
      · have hs : scoreMatch title query = 3 := by simp [scoreMatch, h0, h1, h2]
        rw [hs]
        exact ⟨iff_of_false (by omega) h0,
          iff_of_false (by omega) (fun h => h1 (hsw.mpr h.2)),
          iff_of_false (by omega) (fun h => h2 (hinc.mpr h.2.2)),
          iff_of_true rfl (fun hex => h2 (hinc.mpr hex))⟩

/-- Witness for C3: `"SwiftUIView"` against `"SwiftUI*"` is a strict
prefix extension of the `*`-stripped query and scores 1. -/
theorem c3_witness : scoreMatch "SwiftUIView" "SwiftUI*" = 1 :=
  (c3_scoreMatch_tiers "SwiftUIView" "SwiftUI*").2.1.mpr
    ⟨by decide, lowerL "View".data, by decide⟩

/-- C10: for every non-empty title and every query consisting only of
`*` characters, `scoreMatch` returns exactly 1 (the stripped query is
empty, so exact equality fails for a non-empty title while starts-with
succeeds trivially), and the empty title alone yields score 0. -/
theorem c10_pure_star_scores (title query : String)
    (hq : ∀ c ∈ query.data, c = '*') :
    (title ≠ "" → scoreMatch title query = 1)
      ∧ scoreMatch "" query = 0 := by
  have hstrip : stripStars query.data = [] := by
    rw [stripStars, List.filter_eq_nil_iff]
    intro c hc
    simp [hq c hc]
  constructor
  · intro ht
    obtain ⟨l⟩ := title
    have hl : l ≠ [] := fun h => ht (by rw [h])
    have hlt : lowerL l ≠ [] := by
      simp [lowerL, hl]
    rw [scoreMatch]
    simp only [hstrip]
    rw [if_neg (by simpa [lowerL] using hlt)]
    rw [if_pos (by rw [show lowerL [] = [] from rfl]; exact jsStartsWith_nil _)]
  · rw [scoreMatch]
    simp only [hstrip, show ("" : String).data = [] from rfl]
    simp

/-- Witness for C10: `scoreMatch "A" "*" = 1` and `scoreMatch "" "*" = 0`. -/
theorem c10_witness : scoreMatch "A" "*" = 1 ∧ scoreMatch "" "*" = 0 :=
  ⟨(c10_pure_star_scores "A" "*" (by decide)).1 (by decide),
    (c10_pure_star_scores "A" "*" (by decide)).2⟩

/-- C2 counterexample: the claim says an entry whose title matches the
pattern but which carries no platform data at all is rejected when a
platform filter is present; here the filter is present (`"iOS"`), the
title matches the pattern, the entry carries no platform data, and the
code's guard `options.platform && ref.platforms` skips the filter, so
the entry is accepted, not rejected. -/
theorem c2_counterexample :
    platformIosOptions.platform = some "iOS"
      ∧ regexTest (compileGlob "UIView") "UIView" = true
      ∧ sampleRefNoPlatforms.title = some "UIView"
      ∧ sampleRefNoPlatforms.platforms = none
      ∧ matchesSearch sampleRefNoPlatforms (compileGlob "UIView")
          platformIosOptions = true := by
  exact ⟨rfl, by decide, rfl, rfl, by decide⟩

/-- C2 amended: with an active (non-empty) platform filter, an entry
that carries a platforms array is accepted only if some record's name
contains the filter value case-insensitively; in particular an entry
with an empty platforms array is always rejected; an entry with no
platforms field bypasses the platform filter entirely, behaving exactly
as if no platform filter were set. -/
theorem c2_matchesSearch_platform_filter :
    (∀ (ref : Ref) (pattern : List GlobTok) (options : SearchOptions)
        (pl : String) (ps : List PlatformRec),
        options.platform = some pl → pl ≠ "" → ref.platforms = some ps →
        matchesSearch ref pattern options = true →
        ps.any (fun p =>
          match p.name with
          | some n => jsIncludes (lowerL n.data) (lowerL pl.data)
          | none => false) = true)
      ∧ (∀ (ref : Ref) (pattern : List GlobTok) (options : SearchOptions)
          (pl : String),
          options.platform = some pl → pl ≠ "" → ref.platforms = some [] →
          matchesSearch ref pattern options = false)
      ∧ (∀ (ref : Ref) (pattern : List GlobTok) (options : SearchOptions),
          ref.platforms = none →
          matchesSearch ref pattern options
            = matchesSearch ref pattern
                { symbolType := options.symbolType, platform := none,
                  maxResults := options.maxResults }) := by
  have hrecords : ∀ (ref : Ref) (pattern : List GlobTok)
      (options : SearchOptions) (pl : String) (ps : List PlatformRec),
      options.platform = some pl → pl ≠ "" → ref.platforms = some ps →
      matchesSearch ref pattern options = true →
      ps.any (fun p =>
        match p.name with
        | some n => jsIncludes (lowerL n.data) (lowerL pl.data)
        | none => false) = true := by
    intro ref pattern options pl ps hpl hplne hps hm
    rw [matchesSearch] at hm
    cases htitle : ref.title with
    | none => rw [htitle] at hm; exact absurd hm (by simp)
    | some t =>
      rw [htitle] at hm
      simp only [hpl, hps] at hm
      by_cases ht : (t == "") = true
      · rw [if_pos ht] at hm; exact absurd hm (by simp)
      · rw [if_neg ht] at hm
        by_cases htest : (!regexTest pattern t) = true
        · rw [if_pos htest] at hm; exact absurd hm (by simp)
        · rw [if_neg htest] at hm
          by_cases hst : (match options.symbolType with
              | some st => st != "" && ref.kind != some st
              | none => false) = true
          · rw [if_pos hst] at hm; exact absurd hm (by simp)
          · rw [if_neg hst] at hm
            by_cases hplat : (pl != ""
                && !(ps.any fun p =>
                  match p.name with
                  | some n => jsIncludes (lowerL n.data) (lowerL pl.data)
                  | none => false)) = true
            · rw [if_pos hplat] at hm; exact absurd hm (by simp)
            · by_cases hany : (ps.any fun p =>
                  match p.name with
                  | some n => jsIncludes (lowerL n.data) (lowerL pl.data)
                  | none => false) = true
              · exact hany
              · refine absurd ?_ hplat
                rw [Bool.and_eq_true]
                refine ⟨bne_iff_ne.mpr hplne, ?_⟩
                simp only [Bool.not_eq_true] at hany
                rw [hany]
                rfl
  refine ⟨hrecords, ?_, ?_⟩
  · intro ref pattern options pl hpl hplne hps
    cases hm : matchesSearch ref pattern options with
    | false => rfl
    | true =>
      have hempty := hrecords ref pattern options pl [] hpl hplne hps hm
      simp at hempty
  · intro ref pattern options hnone
    rcases options with ⟨st, pl, mr⟩
    rw [matchesSearch, matchesSearch]
    cases htitle : ref.title with
    | none => rfl
    | some t => simp only [hnone]

/-- Witness for C2: a reference carrying an iOS availability record is
accepted under the `"iOS"` platform filter, and the theorem forces its
platform list to contain a matching record. -/
theorem c2_witness :
    [iosPlatform].any (fun p =>
      match p.name with
      | some n => jsIncludes (lowerL n.data) (lowerL "iOS".data)
      | none => false) = true :=
  c2_matchesSearch_platform_filter.1 sampleRefIos
    (compileGlob "UIViewController") platformIosOptions "iOS" [iosPlatform]
    rfl (by decide) rfl (by decide)

/-- C5: `searchFramework` returns at most `maxResults` results; every
returned result stems from a reference accepted by the filter; the
returned list is sorted by `scoreMatch` ascending; and equal-score
entries keep the order of the collected list, which follows the
reference map's original iteration order (stable sort). -/
theorem c5_searchFramework_sorted_capped (fw : FrameworkData)
    (frameworkName query : String) (options : SearchOptions) :
    (searchFramework fw frameworkName query options).length
        ≤ options.maxResults.getD 20
      ∧ (∀ r ∈ searchFramework fw frameworkName query options,
          ∃ id ref, (id, ref) ∈ fw.references
            ∧ matchesSearch ref (compileGlob query) options = true
            ∧ r = mkSearchResult fw frameworkName ref)
      ∧ List.Pairwise
          (fun a b => scoreMatch a.title query ≤ scoreMatch b.title query)
          (searchFramework fw frameworkName query options)
      ∧ ∀ s : Nat,
          (searchFramework fw frameworkName query options).filter
              (fun r => scoreMatch r.title query == s)
            = (collectRefs fw frameworkName (compileGlob query) options
                  (options.maxResults.getD 20) fw.references []).filter
                (fun r => scoreMatch r.title query == s) := by
  refine ⟨?_, ?_, ?_, ?_⟩
  · simp only [searchFramework]
    rw [length_sortByScore]
    exact collectRefs_length _ _ _ _ _ _ _ (by simp)
  · intro r hr
    simp only [searchFramework] at hr
    rw [mem_sortByScore] at hr
    rcases collectRefs_mem _ _ _ _ _ _ _ _ hr with h | h
    · simp at h
    · exact h
  · simp only [searchFramework]
    exact pairwise_sortByScore _ _
  · intro s
    simp only [searchFramework]
    exact filter_sortByScore _ _ s

/-- Witness for C5: on the sample framework with cap 3 and query
`"*Controller"`, at most three results come back, and they are the
first three accepted references sorted by score with the two
equal-score entries in original order. -/
theorem c5_witness :
    (searchFramework sampleFramework "UIKit" "*Controller"
        { symbolType := none, platform := none, maxResults := some 3 }).length ≤ 3
      ∧ (searchFramework sampleFramework "UIKit" "*Controller"
          { symbolType := none, platform := none, maxResults := some 3 }).map
            SearchResult.title
        = ["Controller", "UIViewController", "MyController"] :=
  ⟨(c5_searchFramework_sorted_capped sampleFramework "UIKit" "*Controller"
      { symbolType := none, platform := none, maxResults := some 3 }).1,
    by decide⟩

/-- C6: `searchGlobal` returns an error only when the technology-index
fetch itself failed; with a fetched index it always returns a result
list of length at most `maxResults`, whatever the per-framework fetches
do, and a framework whose fetch fails is simply skipped. -/
theorem c6_searchGlobal_degrades_gracefully :
    (∀ (fetchTech : Except String (List Technology))
        (fetchFw : String → Except String FrameworkData)
        (query : String) (options : SearchOptions) (e : String),
        searchGlobal fetchTech fetchFw query options = Except.error e →
        ∃ e', fetchTech = Except.error e')
      ∧ (∀ (ts : List Technology)
          (fetchFw : String → Except String FrameworkData)
          (query : String) (options : SearchOptions),
          ∃ out, searchGlobal (Except.ok ts) fetchFw query options
              = Except.ok out
            ∧ out.length ≤ options.maxResults.getD 50)
      ∧ (∀ (fetchFw : String → Except String FrameworkData)
          (query : String) (options : SearchOptions) (maxResults : Nat)
          (fw : Technology) (rest : List Technology)
          (results : List SearchResult) (e : String),
          fetchFw fw.title = Except.error e →
          results.length < maxResults →
          searchGlobalLoop fetchFw query options maxResults (fw :: rest) results
            = searchGlobalLoop fetchFw query options maxResults rest results) := by
  refine ⟨?_, ?_, ?_⟩
  · intro ft ff q o e h
    cases ft with
    | error e' => exact ⟨e', rfl⟩
    | ok ts => simp [searchGlobal] at h
  · intro ts ff q o
    exact ⟨_, rfl, List.length_take_le _ _⟩
  · intro ff q o max fw rest results e he hlen
    exact searchGlobalLoop_skip ff q o max fw rest results e he hlen

/-- Witness for C6: with a fetch that fails on `Alpha`, the loop over
`[Alpha, Beta]` equals the loop over `[Beta]` alone. -/
theorem c6_witness :
    searchGlobalLoop sampleFetchFw "*Controller"
        { symbolType := none, platform := none, maxResults := some 5 } 5
        [techAlpha, techBeta] []
      = searchGlobalLoop sampleFetchFw "*Controller"
          { symbolType := none, platform := none, maxResults := some 5 } 5
          [techBeta] [] :=
  c6_searchGlobal_degrades_gracefully.2.2 sampleFetchFw "*Controller"
    { symbolType := none, platform := none, maxResults := some 5 } 5
    techAlpha [techBeta] [] "network down" rfl (by decide)

/-- C7: on a fetched technology index, `searchGlobal` computes exactly
the specification-worded global search: candidates are the index-order
entries with kind `"symbol"` and role `"collection"` capped to the
first 20, visited in order only while the accumulated count is below
`maxResults`, each with sub-cap `ceil(maxResults/4)`, and the
concatenation is truncated to `maxResults` with no re-ranking. -/
theorem c7_searchGlobal_refines_spec (ts : List Technology)
    (fetchFw : String → Except String FrameworkData)
    (query : String) (options : SearchOptions) :
    searchGlobal (Except.ok ts) fetchFw query options
      = Except.ok (globalSearchPerSpec fetchFw query options ts) := by
  have const : ∀ (l : List Technology) (acc : List SearchResult),
      options.maxResults.getD 50 ≤ acc.length →
      l.foldl (fun acc fw =>
          if acc.length < options.maxResults.getD 50 then
            match fetchFw fw.title with
            | Except.ok fwData =>
              acc ++ searchFramework fwData fw.title query
                { symbolType := options.symbolType,
                  platform := options.platform,
                  maxResults := some ((options.maxResults.getD 50 + 3) / 4) }
            | Except.error _ => acc
          else acc) acc = acc := by
    intro l
    induction l with
    | nil => intro acc h; rfl
    | cons fw rest ih =>
      intro acc h
      rw [List.foldl_cons, if_neg (by omega)]
      exact ih acc h
  have key : ∀ (l : List Technology) (acc : List SearchResult),
      searchGlobalLoop fetchFw query options (options.maxResults.getD 50) l acc
        = l.foldl (fun acc fw =>
            if acc.length < options.maxResults.getD 50 then
              match fetchFw fw.title with
              | Except.ok fwData =>
                acc ++ searchFramework fwData fw.title query
                  { symbolType := options.symbolType,
                    platform := options.platform,
                    maxResults := some ((options.maxResults.getD 50 + 3) / 4) }
              | Except.error _ => acc
            else acc) acc := by
    intro l
    induction l with
    | nil => intro acc; rfl
    | cons fw rest ih =>
      intro acc
      rw [searchGlobalLoop, List.foldl_cons]
      by_cases hlen : acc.length ≥ options.maxResults.getD 50
      · rw [if_pos hlen, if_neg (by omega)]
        exact (const rest acc hlen).symm
      · rw [if_neg hlen, if_pos (by omega)]
        cases hf : fetchFw fw.title with
        | error e => exact ih _
        | ok fwData => exact ih _
  simp only [searchGlobal, globalSearchPerSpec]
  rw [key]

/-- Witness for C7: the refinement instantiated on the sample index and
fetch function. -/
theorem c7_witness :
    searchGlobal (Except.ok [techAlpha, techBeta]) sampleFetchFw "*Controller"
        { symbolType := none, platform := none, maxResults := some 5 }
      = Except.ok (globalSearchPerSpec sampleFetchFw "*Controller"
          { symbolType := none, platform := none, maxResults := some 5 }
          [techAlpha, techBeta]) :=
  c7_searchGlobal_refines_spec [techAlpha, techBeta] sampleFetchFw "*Controller"
    { symbolType := none, platform := none, maxResults := some 5 }

/-- C8: two requests for one URL within the TTL perform exactly one
underlying fetch, the second served from the cache unchanged; a request
after the TTL has elapsed fetches again and overwrites that URL's entry
in place, leaving every other URL's entry untouched. -/
theorem c8_makeRequest_cache {α : Type} (cache : List (String × CacheEntry α))
    (url : String) (t₁ t₂ : Nat) (d : α) (fetch₂ : Except String α) :
    (cacheGet cache url = none →
      makeRequest cache url t₁ (Except.ok d)
          = (Except.ok d, cacheSet cache url ⟨d, t₁⟩, true)
        ∧ (t₂ - t₁ < cacheTimeout →
            makeRequest (cacheSet cache url ⟨d, t₁⟩) url t₂ fetch₂
              = (Except.ok d, cacheSet cache url ⟨d, t₁⟩, false)))
      ∧ (∀ entry, cacheGet cache url = some entry →
          cacheTimeout ≤ t₁ - entry.timestamp →
          makeRequest cache url t₁ (Except.ok d)
            = (Except.ok d, cacheSet cache url ⟨d, t₁⟩, true))
      ∧ (∀ url', url' ≠ url →
          cacheGet (cacheSet cache url ⟨d, t₁⟩) url' = cacheGet cache url') := by
  refine ⟨?_, ?_, ?_⟩
  · intro hnone
    constructor
    · simp [makeRequest, hnone]
    · intro httl
      simp [makeRequest, cacheGet_cacheSet_self, httl]
  · intro entry hsome httl
    simp only [makeRequest, hsome]
    rw [if_neg (by omega)]
  · intro url' hne
    exact cacheGet_cacheSet_other cache url url' ⟨d, t₁⟩ hne

/-- Witness for C8: a fresh fetch caches the document, and a second
request one millisecond later is served from the cache with no fetch
even though the network would now fail. -/
theorem c8_witness :
    makeRequest ([] : List (String × CacheEntry Nat)) "u" 0 (Except.ok 5)
        = (Except.ok 5, [("u", ⟨5, 0⟩)], true)
      ∧ makeRequest [("u", (⟨5, 0⟩ : CacheEntry Nat))] "u" 1 (Except.error "x")
        = (Except.ok 5, [("u", ⟨5, 0⟩)], false) := by
  have h := (c8_makeRequest_cache ([] : List (String × CacheEntry Nat))
    "u" 0 1 5 (Except.error "x")).1 rfl
  exact ⟨h.1, h.2 (by decide)⟩

/-- C1 (code bug): in the shipped `get_symbol` path a failed symbol
fetch is surfaced to the caller as a raw `McpError` wrapping the fetch
exception verbatim; no fallback resolution happens (the handler never
consults the technology index), so neither the "framework detected"
nor the structured "not found" guidance payload is produced. -/
theorem c1_get_symbol_error_surfaced_raw :
    callToolGetSymbol
        (makeRequest ([] : List (String × CacheEntry SymbolData))
          "https://developer.apple.com/tutorials/data/SwiftUI.json" 0
          (Except.error "AxiosError: timeout of 15000ms exceeded")).1
      = ToolOutcome.mcpError
          ("Error executing tool: Failed to fetch documentation: "
            ++ "AxiosError: timeout of 15000ms exceeded") := rfl

end AppleDoc
